import Mathlib

/-!
Verification development for the fuzzy lookup and disambiguation engine of
`app.py` (conversational knowledge-base front-end, "UseCaseGen-08").

The Python source is shallowly embedded below.  Rows of the loaded dataset
become the structure `Row`; the fuzzy scorer (`fuzz.token_set_ratio` from the
external fuzzywuzzy library) is an abstract parameter `fz`; the markdown table
renderer (`DataFrame.to_markdown`, from the external pandas/tabulate
libraries) is an abstract parameter `tbl`.  Python strings are Lean `String`s,
Python string methods (`lower`, `strip`, `startswith`, slicing) are modelled
character-wise, matching their behaviour on the ASCII data this program
handles.  Python dicts keyed by score become association lists, Python's
`list(set(.))` becomes first-seen deduplication, and `sorted` becomes an
insertion sort under the code-point lexicographic order that Python uses for
strings.  The two regular expressions of the source (`SHOW_ALL_PATTERN` and
`CODE_EXTRACTION_PATTERN`) are compiled by hand into executable scanners whose
equivalence with `re.search` / `re.findall` on these fixed patterns is argued
in their doc comments.
-/

/-- Python `lower()` per character (ASCII data). -/
def pyLower (s : String) : String := String.mk (s.data.map Char.toLower)

/-- Python `strip()`: remove whitespace from both ends. -/
def pyStrip (s : String) : String :=
  String.mk (((s.data.dropWhile Char.isWhitespace).reverse.dropWhile Char.isWhitespace).reverse)

/-- Python slicing `s[n:]` (character based). -/
def strDrop (s : String) (n : Nat) : String := String.mk (s.data.drop n)

/-- Pattern `p` occurs at the very front of `l`. -/
def matchesHere : List Char → List Char → Bool
  | [], _ => true
  | _ :: _, [] => false
  | p :: ps, c :: cs => p == c && matchesHere ps cs

/-- Python `s.startswith(g)`. -/
def pyStartsWith (s g : String) : Bool := matchesHere g.data s.data

/-- Helper for substring search: does `pat` occur anywhere in `l`? -/
def subAux (pat : List Char) : List Char → Bool
  | [] => matchesHere pat []
  | c :: cs => matchesHere pat (c :: cs) || subAux pat cs

/-- Python `pat in s` on strings (substring containment). -/
def containsSub (s pat : String) : Bool := subAux pat.data s.data

/-- Python truthiness of an optional string (`None` and `""` are falsy). -/
def pyTruthy (o : Option String) : Bool := !(o.getD "").isEmpty

/-- One row of the loaded dataset (the four `REQUIRED_COLUMNS` of `app.py`:
`Access Code`, `Setting item name`, `Sub Code`, `Meaning of sub code`). -/
structure Row where
  accessCode : String
  settingName : String
  subCode : String
  meaning : String
deriving DecidableEq

/-- One chat message of `st.session_state.messages`. -/
structure Msg where
  role : String
  content : String
deriving DecidableEq

/-- Constant `MIN_MATCH_SCORE` of `app.py`. -/
def MIN_MATCH_SCORE : Nat := 75

/-- Constant `GREETINGS` of `app.py`. -/
def GREETINGS : List String := ["hi", "hello", "hey", "good morning", "good afternoon"]

/-- Constant `GREETING_RESPONSES` of `app.py`. -/
def GREETING_RESPONSES : List String := ["Hello there!", "Hi!", "Hey! Good to chat."]

/-- Constant `CSV_MATCH_SNIPPETS` of `app.py`. -/
def CSV_MATCH_SNIPPETS : List String :=
  ["I've checked my knowledge base, and here are the details for that 08 Code:",
   "I found a close match! Here is the information you requested:",
   "Certainly! You can find the full mapping details below:"]

/-- Constant `AMBIGUOUS_SHOW_ALL_SNIPPET` of `app.py`. -/
def AMBIGUOUS_SHOW_ALL_SNIPPET : String :=
  "Displaying details for all the highly-matched 08 Codes below:"

/-- Constant `CSV_NOT_FOUND_SNIPPET` of `app.py`. -/
def CSV_NOT_FOUND_SNIPPET : String :=
  "I couldn't find a close match for that 08 Code or query in my knowledge base. Could you try rephrasing or check the exact code or setting name?"

/-- First-seen-order deduplication with an accumulator of already seen codes. -/
def dedupAux (seen : List String) : List String → List String
  | [] => []
  | x :: xs => if x ∈ seen then dedupAux seen xs else x :: dedupAux (x :: seen) xs

/-- First-seen-order deduplication, modelling pandas `Series.unique()` and,
for lists that already carry no duplicates, Python's `list(set(.))`. -/
def dedupFirst (l : List String) : List String := dedupAux [] l

/-- Model of `df['Access Code'].unique()`: unique access codes in first-seen order. -/
def uniqueCodes (df : List Row) : List String := dedupFirst (df.map (fun r => r.accessCode))

/-- Model of `df[df['Access Code'] == access_code]['Setting item name'].iloc[0]`:
name of the first row carrying the code (defaulting to `""` on the empty
match, which cannot arise for a code drawn from `uniqueCodes`). -/
def settingNameOf (df : List Row) (code : String) : String :=
  match df.find? (fun r => r.accessCode == code) with
  | some r => r.settingName
  | none => ""

/-- Model of `df[df['Access Code'] == code]`: all rows of one code (the CodeGroup). -/
def codeGroup (df : List Row) (code : String) : List Row :=
  df.filter (fun r => r.accessCode == code)

/-- Strict code-point comparison of two characters, as Python compares
characters. -/
def charLtB (a b : Char) : Bool := a.toNat < b.toNat

/-- Lexicographic code-point comparison of character lists, as Python's `<`
compares strings. -/
def strLtB : List Char → List Char → Bool
  | [], [] => false
  | [], _ :: _ => true
  | _ :: _, [] => false
  | a :: as, b :: bs => if charLtB a b then true else if charLtB b a then false else strLtB as bs

/-- Python string `<`. -/
def strLt (a b : String) : Bool := strLtB a.data b.data

/-- Insert into a `<`-ascending list, keeping it ascending. -/
def insertSorted (x : String) : List String → List String
  | [] => [x]
  | y :: ys => if strLt x y then x :: y :: ys else y :: insertSorted x ys

/-- Ascending sort by Python string `<`, modelling `sorted(.)`. -/
def sortStrings : List String → List String
  | [] => []
  | x :: xs => insertSorted x (sortStrings xs)

/-- Python `"\n".join(.)`. -/
def joinLines : List String → String
  | [] => ""
  | [x] => x
  | x :: y :: ys => x ++ "\n" ++ joinLines (y :: ys)

/-- Function `format_single_code_details` of `app.py`.  `tbl` stands for the external
markdown table renderer applied to the
`(Sub Code, Meaning of sub code)` columns. -/
def format_single_code_details (tbl : List (String × String) → String)
    (access_code : String) (matched : List Row) : String :=
  let setting_item_name := (matched.head?.map (fun r => r.settingName)).getD ""
  let header_block :=
    "**08 Code:**\t`" ++ access_code ++ "`\n\n**Setting Item Name:**\t" ++
      setting_item_name ++ "\n\n"
  let table_markdown := tbl (matched.map (fun r => (r.subCode, r.meaning)))
  "### Details for Code: `" ++ access_code ++ "`\n\n" ++ header_block ++
    "Available options:\n\n" ++ table_markdown ++ "\n\n---"

/-- Function `format_ambiguous_output` of `app.py`: sorted, duplicate-free bullet list
of the matched codes under the ambiguity header, with the score interpolated
into `AMBIGUOUS_MATCH_SNIPPET`. -/
def format_ambiguous_output (matched_codes : List String) (score : Nat) : Bool × String :=
  let code_list :=
    joinLines ((sortStrings (dedupFirst matched_codes)).map (fun code => "* `" ++ code ++ "`"))
  let snippet :=
    "I found multiple possible matches that score " ++ Nat.repr score ++
      "%. Please try searching for one of the specific 08 Codes below for the full details:"
  (true, "### Ambiguous Search Result\n\n" ++ snippet ++ "\n\n" ++ code_list)

/-- State of `find_best_answer`'s scan: the running maximum and the
`score_to_codes` dict (an association list from score to codes). -/
structure ScanState where
  best_score : Nat
  score_to_codes : List (Nat × List String)
deriving DecidableEq

/-- Model of `score_to_codes.setdefault(k, []).append(x)`. -/
def dictAppend : List (Nat × List String) → Nat → String → List (Nat × List String)
  | [], k, x => [(k, [x])]
  | (k', v) :: rest, k, x =>
    if k' = k then (k', v ++ [x]) :: rest else (k', v) :: dictAppend rest k x

/-- Score `max(score_code, score_name)` for one candidate code: the better of the
fuzzy score against the access code and against its setting name, both
lowercased (`fz` stands for `fuzz.token_set_ratio`). -/
def candScore (fz : String → String → Nat) (q : String) (df : List Row) (code : String) : Nat :=
  max (fz (pyLower q) (pyLower code)) (fz (pyLower q) (pyLower (settingNameOf df code)))

/-- One iteration of `find_best_answer`'s loop (lines 130-147 of `app.py`). -/
def scanStep (fz : String → String → Nat) (q : String) (df : List Row) (minScore : Nat)
    (st : ScanState) (code : String) : ScanState :=
  let current := candScore fz q df code
  if st.best_score < current then
    { best_score := current, score_to_codes := [(current, [code])] }
  else if current = st.best_score ∧ minScore ≤ current then
    { best_score := st.best_score,
      score_to_codes := dictAppend st.score_to_codes st.best_score code }
  else st

/-- The scan run over an arbitrary list of codes. -/
def scanFold (fz : String → String → Nat) (q : String) (df : List Row) (minScore : Nat)
    (codes : List String) : ScanState :=
  codes.foldl (scanStep fz q df minScore) { best_score := 0, score_to_codes := [] }

/-- The full scan of `find_best_answer` over the dataset's unique codes. -/
def runScan (fz : String → String → Nat) (q : String) (df : List Row) (minScore : Nat) :
    ScanState :=
  scanFold fz q df minScore (uniqueCodes df)

/-- The Match Selector's outcome `(best_score, tied_codes)`: the threshold
check of lines 150-154 of `app.py` followed by the duplicate-free list of
codes achieving the best score; `(0, [])` signals no-match. -/
def selectPair (fz : String → String → Nat) (q : String) (df : List Row) (minScore : Nat) :
    Nat × List String :=
  let st := runScan fz q df minScore
  if st.best_score < minScore ∨ st.score_to_codes = [] then (0, [])
  else (st.best_score, dedupFirst ((st.score_to_codes.lookup st.best_score).getD []))

/-- Function `find_best_answer` of `app.py`.  Returns `(False, None)` as
`(false, none)` and `(True, text)` as `(true, some text)`.  The global
configuration constant `MIN_MATCH_SCORE` is the `minScore` parameter. -/
def find_best_answer (tbl : List (String × String) → String) (fz : String → String → Nat)
    (minScore : Nat) (query : String) (df : List Row) : Bool × Option String :=
  let st := runScan fz query df minScore
  if st.best_score < minScore ∨ st.score_to_codes = [] then (false, none)
  else
    let best_score_codes := dedupFirst ((st.score_to_codes.lookup st.best_score).getD [])
    if 1 < best_score_codes.length then
      let fa := format_ambiguous_output best_score_codes st.best_score
      (fa.1, some fa.2)
    else
      let best_match_code := best_score_codes.headD ""
      let matched := codeGroup df best_match_code
      if matched = [] then (false, none)
      else (true, some (format_single_code_details tbl best_match_code matched))

/-- The character class `[A-Z0-9-]` of `CODE_EXTRACTION_PATTERN`. -/
def isCodeChar (c : Char) : Bool :=
  (65 ≤ c.toNat && c.toNat ≤ 90) || (48 ≤ c.toNat && c.toNat ≤ 57) || c == '-'

/-- The backtick character. -/
def btick : Char := Char.ofNat 96

/-- Scanner state for `CODE_EXTRACTION_PATTERN`: nothing matched, matched
`*`, matched `* `, matched the opening backtick with the code characters
accumulated so far. -/
inductive ExtState where
  | s0 : ExtState
  | s1 : ExtState
  | s2 : ExtState
  | run : List Char → ExtState
deriving DecidableEq

/-- Left-to-right scanner equivalent to
`re.findall(r'\* \x60([A-Z0-9-]+)\x60', text)`.  Because the literal `*` that
opens the pattern occurs nowhere else inside a partial match (the following
characters are a space, backticks and `[A-Z0-9-]` characters), `re`'s
restart-one-character-later behaviour collapses to: on any mismatch, restart
at state `s1` when the offending character is itself `*` and at `s0`
otherwise. -/
def extractAux : List Char → ExtState → List String
  | [], _ => []
  | c :: cs, ExtState.s0 => extractAux cs (if c == '*' then ExtState.s1 else ExtState.s0)
  | c :: cs, ExtState.s1 =>
    extractAux cs
      (if c == ' ' then ExtState.s2 else if c == '*' then ExtState.s1 else ExtState.s0)
  | c :: cs, ExtState.s2 =>
    extractAux cs
      (if c == btick then ExtState.run [] else if c == '*' then ExtState.s1 else ExtState.s0)
  | c :: cs, ExtState.run acc =>
    if isCodeChar c then extractAux cs (ExtState.run (acc ++ [c]))
    else if c == btick && !acc.isEmpty then String.mk acc :: extractAux cs ExtState.s0
    else extractAux cs (if c == '*' then ExtState.s1 else ExtState.s0)

/-- Model of `re.findall(CODE_EXTRACTION_PATTERN, text)` of `app.py`. -/
def extractCodes (text : String) : List String := extractAux text.data ExtState.s0

/-- Python's `\w` word character on the ASCII data this program handles. -/
def isWordChar (c : Char) : Bool := c.isAlphanum || c == '_'

/-- Boundary `\b` holds just before the match when the preceding character (if any) is
not a word character; `pre` is the reversed text before the match. -/
def boundaryBefore (pre : List Char) : Bool :=
  match pre with
  | [] => true
  | c :: _ => !isWordChar c

/-- Boundary `\b` holds just after the match when the following character (if any) is
not a word character. -/
def boundaryAfter (post : List Char) : Bool :=
  match post with
  | [] => true
  | c :: _ => !isWordChar c

/-- Does `phrase` occur in `pre.reverse ++ rest` at a position inside `rest`,
delimited by word boundaries on both sides? -/
def occursAux (phrase : List Char) (pre rest : List Char) : Bool :=
  (matchesHere phrase rest && boundaryBefore pre && boundaryAfter (rest.drop phrase.length)) ||
    match rest with
    | [] => false
    | c :: cs => occursAux phrase (c :: pre) cs

/-- Model of `re.search(SHOW_ALL_PATTERN, s)` of `app.py` as a Boolean: one of the four
trigger phrases occurs, word-boundary delimited (each phrase starts and ends
with a word character, so `\b` reduces to the neighbour checks above). -/
def showAllMatch (s : String) : Bool :=
  ["show all", "all options", "give all", "all of them"].any
    (fun p => occursAux p.data [] s.data)

/-- Strip the leading `[\s,.:;]+` of `re.sub(r'^[\s,.:;]+', '', s)`. -/
def stripLeadPunct (s : String) : String :=
  String.mk (s.data.dropWhile
    (fun c => c.isWhitespace || c == ',' || c == '.' || c == ':' || c == ';'))

/-- Function `analyze_prompt_for_multiple_intents` of `app.py`.  For each greeting the
source tests `re.match(r'\b' + greeting + r'\b', q_lower) or
q_lower.startswith(greeting)`; since `re.match` anchors at the start of the
string, the disjunction is equivalent to the `startswith` test alone.
`choose` stands for `random.choice`. -/
def analyze_prompt (choose : List String → String) (prompt : String) : Option String × String :=
  let q_lower := pyStrip (pyLower prompt)
  match GREETINGS.find? (fun g => pyStartsWith q_lower g) with
  | some greeting =>
    let detected := choose GREETING_RESPONSES
    let search_query0 := pyStrip (strDrop q_lower greeting.length)
    let search_query := stripLeadPunct search_query0
    if search_query = "" then (some detected, prompt) else (some detected, search_query)
  | none => (none, prompt)

/-- The `combined_details` loop of the show-all block (lines 252-256 of
`app.py`): concatenate the detail view of every extracted code whose group is
non-empty, in extraction order. -/
def combineDetails (tbl : List (String × String) → String) (df : List Row) :
    List String → String
  | [] => ""
  | code :: rest =>
    (if codeGroup df code = [] then "" else
      format_single_code_details tbl code (codeGroup df code)) ++ combineDetails tbl df rest

/-- The `FORMATTING OUTPUT` section of `app.py` (lines 273-302): combine the
accumulated `final_response` with the match outcome, or fall back to the
no-match messages. -/
def formatTurn (choose : List String → String) (greeting_response : Option String)
    (search_query prompt final_response : String) (csv_match_found : Bool)
    (csv_answer : Option String) : String :=
  if csv_match_found then
    if csv_answer = some "SHOW_ALL_HANDLED" then final_response
    else
      let ans := csv_answer.getD ""
      if containsSub ans "### Ambiguous Search Result" then
        final_response ++ " I need a little more clarity.\n\n" ++ ans
      else if containsSub ans "### Details for Code:" then
        let connector := choose CSV_MATCH_SNIPPETS
        if final_response ≠ "" then final_response ++ " " ++ connector ++ "\n\n" ++ ans
        else final_response ++ connector ++ "\n\n" ++ ans
      else final_response
  else
    if pyStrip search_query = "" ∨ search_query = pyStrip prompt then
      if pyTruthy greeting_response then
        final_response ++
          " I'm ready to search my knowledge base. What 08 code or setting name can I look up for you?"
      else
        "I'm a specialized tool. I couldn't find an answer for that general topic. Try asking about a specific 08 Code or Setting Name!"
    else if pyTruthy greeting_response then
      final_response ++ " " ++ CSV_NOT_FOUND_SNIPPET
    else CSV_NOT_FOUND_SNIPPET

/-- One assistant turn of the chat loop of `app.py` (lines 226-302): greeting
analysis, the contextual show-all logic, the `find_best_answer` fallback,
and the output formatting.  `history` is the message list before the user's
prompt is appended (the source reads `messages[-2]`, the last element of
`history`). -/
def handleTurn (tbl : List (String × String) → String) (fz : String → String → Nat)
    (choose : List String → String) (history : List Msg) (prompt : String) (df : List Row) :
    String :=
  let ga := analyze_prompt choose prompt
  let greeting_response := ga.1
  let search_query := ga.2
  let final1 := if pyTruthy greeting_response then greeting_response.getD "" else ""
  let is_show_all := showAllMatch (pyLower search_query)
  let messages := history ++ [{ role := "user", content := prompt }]
  if 2 ≤ messages.length then
    let last_assistant :=
      match history.getLast? with
      | some m => m.content
      | none => ""
    if is_show_all && containsSub last_assistant "### Ambiguous Search Result" then
      let matched_codes := extractCodes last_assistant
      if matched_codes = [] then
        formatTurn choose greeting_response search_query prompt
          "I couldn't identify the codes from the previous context. Please try searching for a single code name."
          false (some "")
      else
        formatTurn choose greeting_response search_query prompt
          (final1 ++ " " ++ AMBIGUOUS_SHOW_ALL_SNIPPET ++ "\n\n" ++
            combineDetails tbl df matched_codes)
          true (some "SHOW_ALL_HANDLED")
    else
      let r := find_best_answer tbl fz MIN_MATCH_SCORE search_query df
      formatTurn choose greeting_response search_query prompt final1 r.1 r.2
  else
    let r := find_best_answer tbl fz MIN_MATCH_SCORE search_query df
    formatTurn choose greeting_response search_query prompt final1 r.1 r.2

/-- A concrete stand-in for the external markdown table renderer, used to
instantiate theorems on concrete inputs. -/
def tbl0 : List (String × String) → String := fun _ => "[table]"

/-- A concrete deterministic stand-in for `random.choice`. -/
def choose0 : List String → String := fun l => l.headD ""

/-- A concrete scorer: 100 on equal strings, 0 otherwise. -/
def fzEq : String → String → Nat := fun a b => if a == b then 100 else 0

/-- A concrete scorer giving 80 to `alpha` and 95 to `beta`. -/
def fz80 : String → String → Nat :=
  fun _ c => if c == "alpha" then 80 else if c == "beta" then 95 else 0

/-- A concrete scorer giving 0 everywhere. -/
def fzZero : String → String → Nat := fun _ _ => 0

/-- A concrete scorer giving 60 everywhere (below threshold). -/
def fz60 : String → String → Nat := fun _ _ => 60

/-- Two-code dataset scored 80/95 by `fz80`. -/
def dfAB : List Row :=
  [{ accessCode := "ALPHA", settingName := "N1", subCode := "s1", meaning := "m1" },
   { accessCode := "BETA", settingName := "N2", subCode := "s2", meaning := "m2" }]

/-- Two codes whose setting names both equal `Color Mode` (a 100-tie for the
query `color mode` under `fzEq`). -/
def dfColor : List Row :=
  [{ accessCode := "AB-100", settingName := "Color Mode", subCode := "0", meaning := "Off" },
   { accessCode := "AB-200", settingName := "Color Mode", subCode := "0", meaning := "On" }]

/-- Dataset with groups for the codes `PR-401`, `PR-402`, `PR-403`. -/
def dfPR : List Row :=
  [{ accessCode := "PR-401", settingName := "Print Quality Mode", subCode := "00", meaning := "Standard" },
   { accessCode := "PR-401", settingName := "Print Quality Mode", subCode := "01", meaning := "High" },
   { accessCode := "PR-402", settingName := "Print Speed Mode", subCode := "00", meaning := "Normal" },
   { accessCode := "PR-403", settingName := "Print Color Mode", subCode := "00", meaning := "Mono" }]

/-- A rendered ambiguity listing of `PR-401`, `PR-402`, `PR-403`. -/
def ambigPR : String := (format_ambiguous_output ["PR-401", "PR-402", "PR-403"] 80).2

/-- A prior turn that lists `PR-401`, `PR-402`, `PR-403` as an ambiguity
listing with `PR-401` appearing twice. -/
def ambigPRdup : String :=
  "### Ambiguous Search Result\n\nI found multiple possible matches that score 80%. Please try searching for one of the specific 08 Codes below for the full details:\n\n* `PR-401`\n* `PR-401`\n* `PR-402`\n* `PR-403`"

/-- An ambiguity listing whose bullet codes are lowercase, so that
`CODE_EXTRACTION_PATTERN` (uppercase class) extracts nothing. -/
def ambigLower : String :=
  "### Ambiguous Search Result\n\nI found multiple possible matches that score 80%. Please try searching for one of the specific 08 Codes below for the full details:\n\n* `pr-401`\n* `pr-402`"

/-- History ending in the duplicate-carrying listing. -/
def histDup : List Msg := [{ role := "assistant", content := ambigPRdup }]

/-- History ending in the unextractable listing. -/
def histLower : List Msg := [{ role := "assistant", content := ambigLower }]

/-- History ending in the rendered listing `ambigPR`. -/
def histPR : List Msg := [{ role := "assistant", content := ambigPR }]

/-- The extraction-failed message of line 263 of `app.py`. -/
def EXTRACTION_FAILED_MSG : String :=
  "I couldn't identify the codes from the previous context. Please try searching for a single code name."

/-- The generic fallback of line 296 of `app.py`. -/
def GENERIC_FALLBACK_MSG : String :=
  "I'm a specialized tool. I couldn't find an answer for that general topic. Try asking about a specific 08 Code or Setting Name!"

set_option maxRecDepth 100000

/-! ### Lemmas about the scan of `find_best_answer` -/

/-- The running maximum never decreases across one loop iteration. -/
theorem scanStep_best_le (fz : String → String → Nat) (q : String) (df : List Row) (m : Nat)
    (st : ScanState) (c : String) : st.best_score ≤ (scanStep fz q df m st c).best_score := by
  by_cases h1 : st.best_score < candScore fz q df c
  · simp [scanStep, h1]
    omega
  · by_cases h2 : candScore fz q df c = st.best_score ∧ m ≤ candScore fz q df c
    · obtain ⟨h2a, h2b⟩ := h2
      rw [h2a] at h2b
      simp [scanStep, h1, h2a, h2b]
    · simp [scanStep, h1, h2]

/-- The running maximum never decreases across the whole scan. -/
theorem scanFoldFrom_best_le (fz : String → String → Nat) (q : String) (df : List Row)
    (m : Nat) : ∀ (l : List String) (st : ScanState),
    st.best_score ≤ (List.foldl (scanStep fz q df m) st l).best_score := by
  intro l
  induction l with
  | nil => intro st; simp
  | cons c cs ih =>
    intro st
    rw [List.foldl_cons]
    exact le_trans (scanStep_best_le fz q df m st c) (ih _)

/-- If the scan ends below the threshold, no code was ever appended to an
existing entry of `score_to_codes`: every entry is a singleton. -/
theorem scanFold_entries_len (fz : String → String → Nat) (q : String) (df : List Row)
    (m : Nat) : ∀ (l : List String) (st : ScanState),
    (∀ p ∈ st.score_to_codes, p.2.length ≤ 1) →
    (List.foldl (scanStep fz q df m) st l).best_score < m →
    ∀ p ∈ (List.foldl (scanStep fz q df m) st l).score_to_codes, p.2.length ≤ 1 := by
  intro l
  induction l with
  | nil => intro st h _; simpa using h
  | cons c cs ih =>
    intro st h hlt
    rw [List.foldl_cons] at hlt ⊢
    refine ih _ ?_ hlt
    have hb : (scanStep fz q df m st c).best_score < m :=
      lt_of_le_of_lt (scanFoldFrom_best_le fz q df m cs _) hlt
    by_cases h1 : st.best_score < candScore fz q df c
    · intro p hp
      simp [scanStep, h1] at hp
      simp [hp]
    · by_cases h2 : candScore fz q df c = st.best_score ∧ m ≤ candScore fz q df c
      · exfalso
        obtain ⟨h2a, h2b⟩ := h2
        have h2b' : m ≤ st.best_score := h2a ▸ h2b
        have hbe : (scanStep fz q df m st c).best_score = st.best_score := by
          simp [scanStep, h1, h2a, h2b, h2b']
        omega
      · intro p hp
        exact h p (by simpa [scanStep, h1, h2] using hp)

/-- Shape invariant of the `score_to_codes` dict: it is empty or holds exactly
one entry, keyed by the current running maximum, with a non-empty code list. -/
theorem scanFold_shape (fz : String → String → Nat) (q : String) (df : List Row) (m : Nat) :
    ∀ (l : List String) (st : ScanState),
    (st.score_to_codes = [] ∨
      ∃ cs, cs ≠ [] ∧ st.score_to_codes = [(st.best_score, cs)]) →
    ((List.foldl (scanStep fz q df m) st l).score_to_codes = [] ∨
      ∃ cs, cs ≠ [] ∧ (List.foldl (scanStep fz q df m) st l).score_to_codes =
        [((List.foldl (scanStep fz q df m) st l).best_score, cs)]) := by
  intro l
  induction l with
  | nil => intro st h; simpa using h
  | cons c cs ih =>
    intro st h
    rw [List.foldl_cons]
    refine ih _ ?_
    by_cases h1 : st.best_score < candScore fz q df c
    · right
      exact ⟨[c], by simp, by simp [scanStep, h1]⟩
    · by_cases h2 : candScore fz q df c = st.best_score ∧ m ≤ candScore fz q df c
      · right
        obtain ⟨h2a, h2b⟩ := h2
        have h2b' : m ≤ st.best_score := h2a ▸ h2b
        rcases h with h0 | ⟨cs0, hne, heq⟩
        · exact ⟨[c], by simp, by simp [scanStep, h1, h2a, h2b, h2b', h0, dictAppend]⟩
        · exact ⟨cs0 ++ [c], by simp,
            by simp [scanStep, h1, h2a, h2b, h2b', heq, dictAppend]⟩
      · simpa [scanStep, h1, h2] using h

/-- Raising the threshold leaves the running maximum unchanged, and whenever
the final maximum reaches the higher threshold, the two scans end in
identical states. -/
theorem scanFold_min_le (fz : String → String → Nat) (q : String) (df : List Row)
    (m1 m2 : Nat) (hm : m1 ≤ m2) : ∀ (l : List String) (st1 st2 : ScanState),
    st1.best_score = st2.best_score →
    (m2 ≤ st2.best_score → st1 = st2) →
    (List.foldl (scanStep fz q df m1) st1 l).best_score =
        (List.foldl (scanStep fz q df m2) st2 l).best_score ∧
      (m2 ≤ (List.foldl (scanStep fz q df m2) st2 l).best_score →
        List.foldl (scanStep fz q df m1) st1 l = List.foldl (scanStep fz q df m2) st2 l) := by
  intro l
  induction l with
  | nil => intro st1 st2 hb he; simpa using ⟨hb, he⟩
  | cons c cs ih =>
    intro st1 st2 hb he
    rw [List.foldl_cons, List.foldl_cons]
    refine ih _ _ ?_ ?_
    · by_cases h1 : st1.best_score < candScore fz q df c
      · have h1' : st2.best_score < candScore fz q df c := hb ▸ h1
        simp [scanStep, h1, h1']
      · have h1' : ¬ st2.best_score < candScore fz q df c := by rw [← hb]; exact h1
        by_cases h2 : candScore fz q df c = st2.best_score ∧ m2 ≤ candScore fz q df c
        · have hst : st1 = st2 := he (h2.1 ▸ h2.2)
          subst hst
          obtain ⟨h2a, h2b⟩ := h2
          have h2b1 : m1 ≤ candScore fz q df c := le_trans hm h2b
          have hb2 : m2 ≤ st1.best_score := h2a ▸ h2b
          have hb1 : m1 ≤ st1.best_score := h2a ▸ h2b1
          simp [scanStep, h1, h2a, hb1, hb2]
        · by_cases h3 : candScore fz q df c = st1.best_score ∧ m1 ≤ candScore fz q df c
          · obtain ⟨h3a, h3b⟩ := h3
            have h3a' : candScore fz q df c = st2.best_score := h3a.trans hb
            have hb1' : m1 ≤ st2.best_score := h3a' ▸ h3b
            have hm2f : ¬ m2 ≤ st2.best_score := fun hx => h2 ⟨h3a', h3a' ▸ hx⟩
            simp [scanStep, h1, h1', h2, h3a', hb1', hm2f, hb]
          · have hcond : ¬(candScore fz q df c = st2.best_score ∧ m1 ≤ candScore fz q df c) :=
              fun hx => h3 ⟨hx.1.trans hb.symm, hx.2⟩
            simp [scanStep, h1, h1', h2, h3, hcond, hb]
    · intro hle
      by_cases h1 : st1.best_score < candScore fz q df c
      · have h1' : st2.best_score < candScore fz q df c := hb ▸ h1
        simp [scanStep, h1, h1']
      · have h1' : ¬ st2.best_score < candScore fz q df c := by rw [← hb]; exact h1
        by_cases h2 : candScore fz q df c = st2.best_score ∧ m2 ≤ candScore fz q df c
        · have hst : st1 = st2 := he (h2.1 ▸ h2.2)
          subst hst
          obtain ⟨h2a, h2b⟩ := h2
          have h2b1 : m1 ≤ candScore fz q df c := le_trans hm h2b
          have hb2 : m2 ≤ st1.best_score := h2a ▸ h2b
          have hb1 : m1 ≤ st1.best_score := h2a ▸ h2b1
          simp [scanStep, h1, h2a, hb1, hb2]
        · have hstep2 : scanStep fz q df m2 st2 c = st2 := by
            simp [scanStep, h1', h2]
          rw [hstep2] at hle
          have hst : st1 = st2 := he hle
          subst hst
          by_cases h3 : candScore fz q df c = st1.best_score ∧ m1 ≤ candScore fz q df c
          · exfalso
            exact h2 ⟨h3.1, le_trans hle (le_of_eq h3.1.symm)⟩
          · simp [scanStep, h1, h2, h3]

/-- Inversion of `selectPair` on a non-empty tied list: the threshold check
passed, the score is the scan's running maximum and the tied list is the
deduplicated dict entry at that maximum. -/
theorem selectPair_inv (fz : String → String → Nat) (q : String) (df : List Row) (m : Nat)
    (s : Nat) (codes : List String) (h : selectPair fz q df m = (s, codes))
    (hne : codes ≠ []) :
    ¬((runScan fz q df m).best_score < m ∨ (runScan fz q df m).score_to_codes = []) ∧
      s = (runScan fz q df m).best_score ∧
      codes = dedupFirst
        (((runScan fz q df m).score_to_codes.lookup (runScan fz q df m).best_score).getD []) := by
  have h' : (if (runScan fz q df m).best_score < m ∨ (runScan fz q df m).score_to_codes = []
      then ((0 : Nat), ([] : List String))
      else ((runScan fz q df m).best_score,
        dedupFirst
          (((runScan fz q df m).score_to_codes.lookup (runScan fz q df m).best_score).getD []))) =
      (s, codes) := h
  by_cases hc : (runScan fz q df m).best_score < m ∨ (runScan fz q df m).score_to_codes = []
  · rw [if_pos hc] at h'
    exact absurd (Prod.ext_iff.mp h').2.symm hne
  · rw [if_neg hc] at h'
    exact ⟨hc, (Prod.ext_iff.mp h').1.symm, (Prod.ext_iff.mp h').2.symm⟩

/-- Unfolding equation for `selectPair`. -/
theorem selectPair_eq (fz : String → String → Nat) (q : String) (df : List Row) (m : Nat) :
    selectPair fz q df m =
      if (runScan fz q df m).best_score < m ∨ (runScan fz q df m).score_to_codes = []
      then (0, [])
      else ((runScan fz q df m).best_score,
        dedupFirst
          (((runScan fz q df m).score_to_codes.lookup (runScan fz q df m).best_score).getD [])) :=
  rfl

/-- C1: during `find_best_answer`'s scan a strictly better candidate resets
the tied-code map to that candidate alone, discarding earlier ties: on a
dataset whose unique codes are `a` then `b`, scoring 80 and 95, the scan ends
with the map holding exactly `b` at 95, and the selector returns
`(95, [b])` — the tied set is `{b}`, not `{a, b}`. -/
theorem claim_C1 (fz : String → String → Nat) (q : String) (df : List Row) (a b : String)
    (hu : uniqueCodes df = [a, b]) (ha : candScore fz q df a = 80)
    (hb : candScore fz q df b = 95) :
    (runScan fz q df MIN_MATCH_SCORE).score_to_codes = [(95, [b])] ∧
      selectPair fz q df MIN_MATCH_SCORE = (95, [b]) := by
  have hrun : runScan fz q df MIN_MATCH_SCORE =
      { best_score := 95, score_to_codes := [(95, [b])] } := by
    unfold runScan scanFold
    rw [hu, List.foldl_cons, List.foldl_cons, List.foldl_nil]
    have s1 : scanStep fz q df MIN_MATCH_SCORE { best_score := 0, score_to_codes := [] } a =
        { best_score := 80, score_to_codes := [(80, [a])] } := by
      simp [scanStep, ha]
    rw [s1]
    simp [scanStep, hb]
  refine ⟨by rw [hrun], ?_⟩
  rw [selectPair_eq, hrun]
  simp [MIN_MATCH_SCORE, List.lookup, dedupFirst, dedupAux]

/-- Witness for C1 at a concrete scorer and dataset. -/
theorem claim_C1_witness :
    uniqueCodes dfAB = ["ALPHA", "BETA"] ∧
      candScore fz80 "q" dfAB "ALPHA" = 80 ∧ candScore fz80 "q" dfAB "BETA" = 95 ∧
      (runScan fz80 "q" dfAB MIN_MATCH_SCORE).score_to_codes = [(95, ["BETA"])] ∧
      selectPair fz80 "q" dfAB MIN_MATCH_SCORE = (95, ["BETA"]) := by
  refine ⟨by decide, by decide, by decide, ?_, ?_⟩
  · exact (claim_C1 fz80 "q" dfAB "ALPHA" "BETA" (by decide) (by decide) (by decide)).1
  · exact (claim_C1 fz80 "q" dfAB "ALPHA" "BETA" (by decide) (by decide) (by decide)).2

/-- C2: whenever more than one unique code achieves the best qualifying
score, `find_best_answer` returns the Ambiguous outcome built by
`format_ambiguous_output` from exactly that score and those tied codes.  The
statement has no exception for a best score of 100: this variant has no
exact-match shortcut, so a tie at 100 is reported as Ambiguous too. -/
theorem claim_C2 (tbl : List (String × String) → String) (fz : String → String → Nat)
    (m : Nat) (q : String) (df : List Row) (s : Nat) (codes : List String)
    (hsel : selectPair fz q df m = (s, codes)) (hlen : 1 < codes.length) :
    find_best_answer tbl fz m q df =
      ((format_ambiguous_output codes s).1, some (format_ambiguous_output codes s).2) ∧
      (find_best_answer tbl fz m q df).1 = true := by
  have hne : codes ≠ [] := by
    intro h0; rw [h0] at hlen; simp at hlen
  obtain ⟨hc, hs, hcodes⟩ := selectPair_inv fz q df m s codes hsel hne
  have hmain : find_best_answer tbl fz m q df =
      ((format_ambiguous_output codes s).1, some (format_ambiguous_output codes s).2) := by
    simp only [find_best_answer]
    rw [if_neg hc, ← hcodes, if_pos hlen, ← hs]
  exact ⟨hmain, by rw [hmain]; rfl⟩

/-- Witness for C2 at a tie with best score exactly 100. -/
theorem claim_C2_witness :
    selectPair fzEq "color mode" dfColor 75 = (100, ["AB-100", "AB-200"]) ∧
      find_best_answer tbl0 fzEq 75 "color mode" dfColor =
        ((format_ambiguous_output ["AB-100", "AB-200"] 100).1,
          some (format_ambiguous_output ["AB-100", "AB-200"] 100).2) := by
  refine ⟨by decide, ?_⟩
  exact (claim_C2 tbl0 fzEq 75 "color mode" dfColor 100 ["AB-100", "AB-200"]
    (by decide) (by decide)).1

/-- C3: when exactly one code achieves the best qualifying score,
`find_best_answer` returns the single-match outcome carrying the code's full
group of rows, and if that group is empty it returns the no-match value
`(false, none)` instead of raising. -/
theorem claim_C3 (tbl : List (String × String) → String) (fz : String → String → Nat)
    (m : Nat) (q : String) (df : List Row) (s : Nat) (c : String)
    (hsel : selectPair fz q df m = (s, [c])) :
    find_best_answer tbl fz m q df =
      if codeGroup df c = [] then (false, none)
      else (true, some (format_single_code_details tbl c (codeGroup df c))) := by
  obtain ⟨hc, hs, hcodes⟩ := selectPair_inv fz q df m s [c] hsel (by simp)
  simp only [find_best_answer]
  rw [if_neg hc, ← hcodes]
  rw [if_neg (by simp : ¬ 1 < ([c] : List String).length)]
  simp

/-- Witness for C3 at a unique best match whose group has two rows. -/
theorem claim_C3_witness :
    selectPair fzEq "pr-401" dfPR 75 = (100, ["PR-401"]) ∧
      find_best_answer tbl0 fzEq 75 "pr-401" dfPR =
        (if codeGroup dfPR "PR-401" = [] then (false, none)
         else (true, some (format_single_code_details tbl0 "PR-401" (codeGroup dfPR "PR-401")))) := by
  exact ⟨by decide, claim_C3 tbl0 fzEq 75 "pr-401" dfPR 100 "PR-401" (by decide)⟩

/-- C4: when the scan's best score is below the threshold,
`find_best_answer` returns the no-match value, and no tie at that
sub-threshold score was ever recorded: every entry of the score map is a
singleton. -/
theorem claim_C4 (tbl : List (String × String) → String) (fz : String → String → Nat)
    (m : Nat) (q : String) (df : List Row)
    (h : (runScan fz q df m).best_score < m) :
    find_best_answer tbl fz m q df = (false, none) ∧
      ∀ p ∈ (runScan fz q df m).score_to_codes, p.2.length ≤ 1 := by
  constructor
  · simp only [find_best_answer]
    rw [if_pos (Or.inl h)]
  · exact scanFold_entries_len fz q df m (uniqueCodes df)
      { best_score := 0, score_to_codes := [] } (by simp) h

/-- Witness for C4: every candidate scores 60, so the second candidate ties
at a sub-threshold score and is not recorded; the outcome is no-match. -/
theorem claim_C4_witness :
    (runScan fz60 "x" dfAB 75).best_score < 75 ∧
      find_best_answer tbl0 fz60 75 "x" dfAB = (false, none) ∧
      (runScan fz60 "x" dfAB 75).score_to_codes = [(60, ["ALPHA"])] := by
  exact ⟨by decide, (claim_C4 tbl0 fz60 75 "x" dfAB (by decide)).1, by decide⟩

/-- C7: raising the threshold can only keep the selector's outcome or turn it
into no-match `(0, [])`; the tied list never grows, and a no-match never
becomes a match. -/
theorem claim_C7 (fz : String → String → Nat) (q : String) (df : List Row) (m1 m2 : Nat)
    (hm : m1 ≤ m2) :
    (selectPair fz q df m2 = selectPair fz q df m1 ∨ selectPair fz q df m2 = (0, [])) ∧
      (selectPair fz q df m2).2.length ≤ (selectPair fz q df m1).2.length ∧
      (selectPair fz q df m1 = (0, []) → selectPair fz q df m2 = (0, [])) := by
  have key := scanFold_min_le fz q df m1 m2 hm (uniqueCodes df)
    { best_score := 0, score_to_codes := [] } { best_score := 0, score_to_codes := [] }
    rfl (fun _ => rfl)
  have hb : (runScan fz q df m1).best_score = (runScan fz q df m2).best_score := key.1
  have he : m2 ≤ (runScan fz q df m2).best_score → runScan fz q df m1 = runScan fz q df m2 :=
    key.2
  have main : selectPair fz q df m2 = selectPair fz q df m1 ∨
      selectPair fz q df m2 = (0, []) := by
    by_cases hcge : m2 ≤ (runScan fz q df m2).best_score
    · left
      have heq := he hcge
      rw [selectPair_eq fz q df m1, selectPair_eq fz q df m2, heq]
      have hnl2 : ¬ (runScan fz q df m2).best_score < m2 := not_lt.mpr hcge
      have hnl1 : ¬ (runScan fz q df m2).best_score < m1 := not_lt.mpr (le_trans hm hcge)
      by_cases hd : (runScan fz q df m2).score_to_codes = []
      · rw [if_pos (Or.inr hd), if_pos (Or.inr hd)]
      · rw [if_neg (by tauto), if_neg (by tauto)]
    · right
      rw [selectPair_eq fz q df m2, if_pos (Or.inl (not_le.mp hcge))]
  have nm : selectPair fz q df m1 = (0, []) → selectPair fz q df m2 = (0, []) := by
    intro h1
    rcases main with he' | he'
    · rw [he', h1]
    · exact he'
  refine ⟨main, ?_, nm⟩
  rcases main with he' | he'
  · rw [he']
  · rw [he']; simp

/-- Witness for C7: raising the threshold from 75 to 101 over a 100-tie. -/
theorem claim_C7_witness :
    (selectPair fzEq "color mode" dfColor 101 = selectPair fzEq "color mode" dfColor 75 ∨
        selectPair fzEq "color mode" dfColor 101 = (0, [])) ∧
      (selectPair fzEq "color mode" dfColor 101).2.length ≤
        (selectPair fzEq "color mode" dfColor 75).2.length := by
  have h := claim_C7 fzEq "color mode" dfColor 75 101 (by decide)
  exact ⟨h.1, h.2.1⟩

/-- C8: for a fixed scorer (pointwise), query and dataset, the selection and
`find_best_answer` are deterministic: two invocations on equal inputs yield
equal `(best_score, tied_codes)` pairs and equal rendered outcomes. -/
theorem claim_C8 (tbl : List (String × String) → String) (fz1 fz2 : String → String → Nat)
    (m : Nat) (q1 q2 : String) (df1 df2 : List Row)
    (hfz : ∀ s t, fz1 s t = fz2 s t) (hq : q1 = q2) (hdf : df1 = df2) :
    selectPair fz1 q1 df1 m = selectPair fz2 q2 df2 m ∧
      find_best_answer tbl fz1 m q1 df1 = find_best_answer tbl fz2 m q2 df2 := by
  have hf : fz1 = fz2 := funext fun s => funext fun t => hfz s t
  subst hf hq hdf
  exact ⟨rfl, rfl⟩

/-- Witness for C8 at a concrete invocation. -/
theorem claim_C8_witness :
    selectPair fzEq "pr-401" dfPR 75 = selectPair fzEq "pr-401" dfPR 75 ∧
      find_best_answer tbl0 fzEq 75 "pr-401" dfPR =
        find_best_answer tbl0 fzEq 75 "pr-401" dfPR :=
  claim_C8 tbl0 fzEq fzEq 75 "pr-401" "pr-401" dfPR dfPR (fun _ _ => rfl) rfl rfl

/-- C9: at every point of the scan (after any prefix of the unique codes) the
score map is empty or holds exactly one entry, keyed by the running best
score with a non-empty code list, so the lookup at the best score succeeds
whenever the map is non-empty. -/
theorem claim_C9 (fz : String → String → Nat) (q : String) (df : List Row) (m : Nat)
    (l : List String) (hpre : ∃ rest, uniqueCodes df = l ++ rest) :
    (scanFold fz q df m l).score_to_codes = [] ∨
      ∃ cs, cs ≠ [] ∧
        (scanFold fz q df m l).score_to_codes = [((scanFold fz q df m l).best_score, cs)] ∧
        (scanFold fz q df m l).score_to_codes.lookup (scanFold fz q df m l).best_score =
          some cs := by
  unfold scanFold
  have hshape := scanFold_shape fz q df m l { best_score := 0, score_to_codes := [] } (by simp)
  rcases hshape with h0 | ⟨cs, hne, heq⟩
  · exact Or.inl h0
  · refine Or.inr ⟨cs, hne, heq, ?_⟩
    rw [heq]
    simp [List.lookup]

/-- Witness for C9 after the one-element prefix of a concrete scan. -/
theorem claim_C9_witness :
    uniqueCodes dfColor = ["AB-100"] ++ ["AB-200"] ∧
      (scanFold fzEq "color mode" dfColor 75 ["AB-100"]).score_to_codes ≠ [] := by
  refine ⟨by decide, ?_⟩
  rcases claim_C9 fzEq "color mode" dfColor 75 ["AB-100"] ⟨["AB-200"], by decide⟩
    with h0 | ⟨cs, hne, heq, hlook⟩
  · exact absurd h0 (by decide)
  · rw [heq]
    simp

/-! ### Lemmas about the lexicographic sort of `format_ambiguous_output` -/

/-- Characters with equal code points are equal. -/
theorem charToNat_inj {a b : Char} (h : a.toNat = b.toNat) : a = b := by
  have h2 := congrArg Char.ofNat h
  rwa [Char.ofNat_toNat, Char.ofNat_toNat] at h2

/-- Comparison `charLtB` as a proposition. -/
theorem charLtB_iff {a b : Char} : charLtB a b = true ↔ a.toNat < b.toNat := by
  simp [charLtB]

/-- Lexicographic comparison is irreflexive. -/
theorem strLtB_irrefl : ∀ l : List Char, strLtB l l = false := by
  intro l
  induction l with
  | nil => rfl
  | cons a as ih =>
    have h : charLtB a a = false := by simp [charLtB]
    simp [strLtB, h, ih]

/-- Lexicographic comparison is transitive. -/
theorem strLtB_trans : ∀ l1 l2 l3 : List Char,
    strLtB l1 l2 = true → strLtB l2 l3 = true → strLtB l1 l3 = true := by
  intro l1
  induction l1 with
  | nil =>
    intro l2 l3 h12 h23
    cases l2 with
    | nil => simp [strLtB] at h12
    | cons b bs =>
      cases l3 with
      | nil => simp [strLtB] at h23
      | cons c cs => simp [strLtB]
  | cons a as ih =>
    intro l2 l3 h12 h23
    cases l2 with
    | nil => simp [strLtB] at h12
    | cons b bs =>
      cases l3 with
      | nil => simp [strLtB] at h23
      | cons c cs =>
        simp only [strLtB] at h12 h23 ⊢
        by_cases hab : charLtB a b = true
        · by_cases hbc : charLtB b c = true
          · have : charLtB a c = true := by
              rw [charLtB_iff] at hab hbc ⊢
              omega
            simp [this]
          · by_cases hcb : charLtB c b = true
            · simp [hbc, hcb] at h23
            · have hbceq : b = c :=
                charToNat_inj (by rw [charLtB_iff] at hbc hcb; omega)
              subst hbceq
              simp [hab]
        · by_cases hba : charLtB b a = true
          · simp [hab, hba] at h12
          · have habeq : a = b :=
              charToNat_inj (by rw [charLtB_iff] at hab hba; omega)
            subst habeq
            simp only [hab, if_false, Bool.false_eq_true] at h12 ⊢
            by_cases hac : charLtB a c = true
            · simp [hac]
            · by_cases hca : charLtB c a = true
              · simp [hac, hca] at h23
              · have haceq : a = c :=
                  charToNat_inj (by rw [charLtB_iff] at hac hca; omega)
                subst haceq
                simp only [hac, Bool.false_eq_true, if_false] at h23 ⊢
                exact ih bs cs h12 h23

/-- Two lists incomparable by `strLtB` are equal. -/
theorem strLtB_total : ∀ l1 l2 : List Char,
    strLtB l1 l2 = false → strLtB l2 l1 = false → l1 = l2 := by
  intro l1
  induction l1 with
  | nil =>
    intro l2 h12 _
    cases l2 with
    | nil => rfl
    | cons b bs => simp [strLtB] at h12
  | cons a as ih =>
    intro l2 h12 h21
    cases l2 with
    | nil => simp [strLtB] at h21
    | cons b bs =>
      by_cases hab : charLtB a b = true
      · simp [strLtB, hab] at h12
      · by_cases hba : charLtB b a = true
        · simp [strLtB, hba] at h21
        · have habeq : a = b :=
            charToNat_inj (by rw [charLtB_iff] at hab hba; omega)
          subst habeq
          simp only [strLtB, hab, if_false, Bool.false_eq_true] at h12 h21
          rw [ih bs h12 h21]

/-- Membership through `insertSorted`. -/
theorem mem_insertSorted (x z : String) : ∀ l : List String,
    z ∈ insertSorted x l ↔ z = x ∨ z ∈ l := by
  intro l
  induction l with
  | nil => simp [insertSorted]
  | cons y ys ih =>
    simp only [insertSorted]
    by_cases h : strLt x y = true
    · simp [h]
    · simp only [h, Bool.false_eq_true, if_false, List.mem_cons, ih]
      tauto

/-- Insertion `insertSorted` keeps a strictly ascending list strictly ascending when the
inserted element is new. -/
theorem pairwise_insertSorted (x : String) : ∀ l : List String,
    List.Pairwise (fun a b => strLt a b = true) l → (∀ y ∈ l, x ≠ y) →
    List.Pairwise (fun a b => strLt a b = true) (insertSorted x l) := by
  intro l
  induction l with
  | nil => intro _ _; simp [insertSorted]
  | cons y ys ih =>
    intro hp hne
    rcases List.pairwise_cons.mp hp with ⟨hy, hys⟩
    simp only [insertSorted]
    by_cases h : strLt x y = true
    · rw [if_pos h]
      refine List.pairwise_cons.mpr ⟨?_, hp⟩
      intro z hz
      rcases List.mem_cons.mp hz with rfl | hz'
      · exact h
      · exact strLtB_trans x.data y.data z.data h (hy z hz')
    · rw [if_neg h]
      refine List.pairwise_cons.mpr
        ⟨?_, ih hys (fun z hz => hne z (List.mem_cons_of_mem _ hz))⟩
      intro z hz
      rcases (mem_insertSorted x z ys).mp hz with rfl | hz'
      · cases hyx : strLt y z with
        | true => rfl
        | false =>
          exfalso
          have h' : strLt z y = false := by
            revert h
            cases strLt z y <;> simp
          have hfx : z.data = y.data := strLtB_total z.data y.data h' hyx
          exact hne y (List.mem_cons_self y ys) (congrArg String.mk hfx)
      · exact hy z hz'

/-- Membership through `sortStrings`. -/
theorem mem_sortStrings (z : String) : ∀ l : List String,
    z ∈ sortStrings l ↔ z ∈ l := by
  intro l
  induction l with
  | nil => simp [sortStrings]
  | cons x xs ih => simp [sortStrings, mem_insertSorted, ih]

/-- Sorting a duplicate-free list yields a strictly ascending list. -/
theorem pairwise_sortStrings : ∀ l : List String, l.Nodup →
    List.Pairwise (fun a b => strLt a b = true) (sortStrings l) := by
  intro l
  induction l with
  | nil => intro _; simp [sortStrings]
  | cons x xs ih =>
    intro hl
    rcases List.nodup_cons.mp hl with ⟨hx, hxs⟩
    simp only [sortStrings]
    refine pairwise_insertSorted x _ (ih hxs) ?_
    intro y hy hxy
    exact hx (hxy ▸ (mem_sortStrings y xs).mp hy)

/-- Membership through `dedupAux`. -/
theorem mem_dedupAux (z : String) : ∀ (l seen : List String),
    z ∈ dedupAux seen l ↔ z ∈ l ∧ z ∉ seen := by
  intro l
  induction l with
  | nil => intro seen; simp [dedupAux]
  | cons x xs ih =>
    intro seen
    simp only [dedupAux]
    by_cases h : x ∈ seen
    · rw [if_pos h, ih]
      constructor
      · rintro ⟨hzx, hzs⟩
        exact ⟨List.mem_cons_of_mem _ hzx, hzs⟩
      · rintro ⟨hor, hzs⟩
        rcases List.mem_cons.mp hor with rfl | hzx
        · exact absurd h hzs
        · exact ⟨hzx, hzs⟩
    · rw [if_neg h]
      simp only [List.mem_cons, ih]
      constructor
      · rintro (rfl | ⟨hzx, hzs⟩)
        · exact ⟨Or.inl rfl, h⟩
        · exact ⟨Or.inr hzx, fun hc => hzs (Or.inr hc)⟩
      · rintro ⟨hor, hzs⟩
        rcases hor with rfl | hzx
        · exact Or.inl rfl
        · by_cases hzx' : z = x
          · exact Or.inl hzx'
          · exact Or.inr ⟨hzx, fun hc => hc.elim hzx' hzs⟩
      
/-- Deduplication `dedupAux` yields a duplicate-free list. -/
theorem nodup_dedupAux : ∀ (l seen : List String), (dedupAux seen l).Nodup := by
  intro l
  induction l with
  | nil => intro seen; simp [dedupAux]
  | cons x xs ih =>
    intro seen
    simp only [dedupAux]
    by_cases h : x ∈ seen
    · rw [if_pos h]; exact ih seen
    · rw [if_neg h]
      refine List.nodup_cons.mpr ⟨?_, ih _⟩
      rw [mem_dedupAux]
      rintro ⟨_, hn⟩
      exact hn (List.mem_cons_self x seen)

/-- Membership through `dedupFirst`. -/
theorem mem_dedupFirst (z : String) (l : List String) : z ∈ dedupFirst l ↔ z ∈ l := by
  rw [dedupFirst, mem_dedupAux]
  simp

/-! ### Lemmas about the code extraction scanner -/

/-- Decimal digit strings contain no `*`. -/
theorem toDigitsCore_no_star : ∀ (f n : Nat) (acc : List Char),
    (∀ c ∈ acc, c ≠ '*') → ∀ c ∈ Nat.toDigitsCore 10 f n acc, c ≠ '*' := by
  intro f
  induction f with
  | zero => intro n acc h; exact h
  | succ f ih =>
    intro n acc h
    have hd : Nat.digitChar (n % 10) ≠ '*' := by
      have h10 : n % 10 < 10 := Nat.mod_lt _ (by norm_num)
      have hall : ∀ k, k < 10 → Nat.digitChar k ≠ '*' := by decide
      exact hall _ h10
    simp only [Nat.toDigitsCore]
    split
    · intro c hc
      rcases List.mem_cons.mp hc with rfl | hcm
      · exact hd
      · exact h c hcm
    · refine ih _ _ ?_
      intro c hc
      rcases List.mem_cons.mp hc with rfl | hcm
      · exact hd
      · exact h c hcm

/-- Decimal `Nat.repr` contains no `*`. -/
theorem repr_no_star (n : Nat) : ∀ c ∈ (Nat.repr n).data, c ≠ '*' := by
  intro c hc
  have e : (Nat.repr n).data = Nat.toDigitsCore 10 (n + 1) n [] := rfl
  rw [e] at hc
  exact toDigitsCore_no_star (n + 1) n [] (by simp) c hc

/-- The scanner in state `s0` skips any prefix that contains no `*`. -/
theorem extractAux_skip_no_star : ∀ (xs ys : List Char),
    (∀ c ∈ xs, c ≠ '*') →
    extractAux (xs ++ ys) ExtState.s0 = extractAux ys ExtState.s0 := by
  intro xs
  induction xs with
  | nil => intro ys _; rfl
  | cons c cs ih =>
    intro ys h
    have hc : ¬((c == '*') = true) := by
      simp [h c (List.mem_cons_self c cs)]
    have step : extractAux (c :: (cs ++ ys)) ExtState.s0 =
        extractAux (cs ++ ys) (if c == '*' then ExtState.s1 else ExtState.s0) := rfl
    rw [List.cons_append, step, if_neg hc]
    exact ih ys (fun z hz => h z (List.mem_cons_of_mem _ hz))

/-- The scanner in the run state consumes a code-character run up to its
closing backtick and emits the accumulated code. -/
theorem extractAux_run : ∀ (l acc rest : List Char),
    (∀ ch ∈ l, isCodeChar ch = true) → acc ++ l ≠ [] →
    extractAux (l ++ btick :: rest) (ExtState.run acc) =
      String.mk (acc ++ l) :: extractAux rest ExtState.s0 := by
  intro l
  induction l with
  | nil =>
    intro acc rest _ hne
    have h1 : ¬(isCodeChar btick = true) := by decide
    have h2 : acc.isEmpty = false := by
      cases acc with
      | nil => simp at hne
      | cons a as => rfl
    have step : extractAux (btick :: rest) (ExtState.run acc) =
        (if isCodeChar btick then extractAux rest (ExtState.run (acc ++ [btick]))
         else if btick == btick && !acc.isEmpty then
           String.mk acc :: extractAux rest ExtState.s0
         else extractAux rest (if btick == '*' then ExtState.s1 else ExtState.s0)) := rfl
    rw [List.nil_append, step, if_neg h1, if_pos (by simp [h2])]
    simp
  | cons ch l' ih =>
    intro acc rest h hne
    have hch : isCodeChar ch = true := h ch (List.mem_cons_self ch l')
    have step : extractAux (ch :: (l' ++ btick :: rest)) (ExtState.run acc) =
        (if isCodeChar ch then extractAux (l' ++ btick :: rest) (ExtState.run (acc ++ [ch]))
         else if ch == btick && !acc.isEmpty then
           String.mk acc :: extractAux (l' ++ btick :: rest) ExtState.s0
         else extractAux (l' ++ btick :: rest) (if ch == '*' then ExtState.s1 else ExtState.s0)) :=
      rfl
    rw [List.cons_append, step, if_pos hch]
    rw [ih (acc ++ [ch]) rest (fun z hz => h z (List.mem_cons_of_mem _ hz)) (by simp)]
    simp

/-- One scanner step: `*` from `s0`. -/
theorem ext_s0_star (rest : List Char) :
    extractAux ('*' :: rest) ExtState.s0 = extractAux rest ExtState.s1 := rfl

/-- One scanner step: a space from `s1`. -/
theorem ext_s1_space (rest : List Char) :
    extractAux (' ' :: rest) ExtState.s1 = extractAux rest ExtState.s2 := rfl

/-- One scanner step: a backtick from `s2` opens an empty run. -/
theorem ext_s2_btick (rest : List Char) :
    extractAux (btick :: rest) ExtState.s2 = extractAux rest (ExtState.run []) := rfl

/-- One scanner step: a newline from `s0` is skipped. -/
theorem ext_s0_nl (rest : List Char) :
    extractAux ('\n' :: rest) ExtState.s0 = extractAux rest ExtState.s0 := rfl

/-- A full bullet `* `-backtick-code-backtick at the front of the text emits
its code. -/
theorem ext_bullet_step (c : String) (tail : List Char)
    (hne : c.data ≠ []) (hwf : ∀ ch ∈ c.data, isCodeChar ch = true) :
    extractAux (("* `" ++ c ++ "`").data ++ tail) ExtState.s0 =
      c :: extractAux tail ExtState.s0 := by
  have e : ("* `" ++ c ++ "`").data ++ tail =
      '*' :: ' ' :: btick :: (c.data ++ btick :: tail) := by
    rw [String.data_append, String.data_append]
    rw [show ("* `" : String).data = ['*', ' ', btick] from rfl,
      show ("`" : String).data = [btick] from rfl]
    simp
  rw [e, ext_s0_star, ext_s1_space, ext_s2_btick,
    extractAux_run c.data [] tail hwf (by simpa using hne)]
  simp only [List.nil_append]

/-- Extraction over a joined bullet list of well-formed codes recovers
exactly those codes, in order. -/
theorem extractAux_bullets : ∀ codes : List String,
    (∀ c ∈ codes, c.data ≠ [] ∧ ∀ ch ∈ c.data, isCodeChar ch = true) →
    extractAux (joinLines (codes.map (fun c => "* `" ++ c ++ "`"))).data ExtState.s0 = codes := by
  intro codes
  induction codes with
  | nil => intro _; rfl
  | cons c cs ih =>
    intro h
    obtain ⟨hne, hwf⟩ := h c (List.mem_cons_self c cs)
    cases cs with
    | nil =>
      have e : joinLines ([c].map (fun s => "* `" ++ s ++ "`")) = "* `" ++ c ++ "`" := rfl
      rw [e]
      have hstep := ext_bullet_step c [] hne hwf
      rw [List.append_nil] at hstep
      rw [hstep]
      rfl
    | cons c2 cs2 =>
      have e : (joinLines ((c :: c2 :: cs2).map (fun s => "* `" ++ s ++ "`"))).data =
          ("* `" ++ c ++ "`").data ++
            ("\n" ++ joinLines ((c2 :: cs2).map (fun s => "* `" ++ s ++ "`"))).data := by
        show ((("* `" ++ c ++ "`") ++ "\n") ++
          joinLines ((c2 :: cs2).map (fun s => "* `" ++ s ++ "`"))).data = _
        rw [String.data_append, String.data_append, String.data_append]
        simp
      rw [e, ext_bullet_step c _ hne hwf]
      congr 1
      rw [String.data_append, show ("\n" : String).data = ['\n'] from rfl]
      rw [show (['\n'] ++ (joinLines ((c2 :: cs2).map (fun s => "* `" ++ s ++ "`"))).data : List Char) =
        '\n' :: (joinLines ((c2 :: cs2).map (fun s => "* `" ++ s ++ "`"))).data from rfl]
      rw [ext_s0_nl]
      exact ih (fun z hz => h z (List.mem_cons_of_mem _ hz))

/-- Extraction from a rendered ambiguity listing yields exactly the sorted,
deduplicated codes of the listing, in that order. -/
theorem extract_format_ambiguous (codes : List String) (score : Nat)
    (h : ∀ c ∈ codes, c.data ≠ [] ∧ ∀ ch ∈ c.data, isCodeChar ch = true) :
    extractCodes (format_ambiguous_output codes score).2 = sortStrings (dedupFirst codes) := by
  have hwf : ∀ c ∈ sortStrings (dedupFirst codes),
      c.data ≠ [] ∧ ∀ ch ∈ c.data, isCodeChar ch = true := by
    intro c hc
    exact h c ((mem_dedupFirst c codes).mp ((mem_sortStrings c _).mp hc))
  unfold extractCodes
  have e : (format_ambiguous_output codes score).2.data =
      ("### Ambiguous Search Result\n\n".data ++
        ("I found multiple possible matches that score ".data ++ ((Nat.repr score).data ++
          "%. Please try searching for one of the specific 08 Codes below for the full details:".data) ++
        "\n\n".data)) ++
      (joinLines ((sortStrings (dedupFirst codes)).map (fun code => "* `" ++ code ++ "`"))).data := by
    simp [format_ambiguous_output, String.data_append]
  rw [e, extractAux_skip_no_star _ _ ?_]
  · exact extractAux_bullets _ hwf
  · intro ch hch
    have hh : ∀ c ∈ ("### Ambiguous Search Result\n\n" : String).data, c ≠ '*' := by decide
    have hs1 : ∀ c ∈ ("I found multiple possible matches that score " : String).data,
        c ≠ '*' := by decide
    have hs2 : ∀ c ∈
        ("%. Please try searching for one of the specific 08 Codes below for the full details:" :
          String).data, c ≠ '*' := by decide
    have hn : ∀ c ∈ ("\n\n" : String).data, c ≠ '*' := by decide
    simp only [List.mem_append] at hch
    rcases hch with h1 | hx
    · exact hh ch h1
    · rcases hx with hy | h5
      · rcases hy with h2 | hz
        · exact hs1 ch h2
        · rcases hz with h3 | h4
          · exact repr_no_star score ch h3
          · exact hs2 ch h4
      · exact hn ch h5

/-- C10: the codes of a rendered ambiguity listing are exactly the input
codes sorted lexicographically with duplicates removed, regardless of the
order they were encountered in; consequently a show-all expansion, which
extracts codes from the rendered text in order, processes them in
lexicographic order, not scan order. -/
theorem claim_C10 (codes : List String) (score : Nat)
    (h : ∀ c ∈ codes, c.data ≠ [] ∧ ∀ ch ∈ c.data, isCodeChar ch = true) :
    extractCodes (format_ambiguous_output codes score).2 = sortStrings (dedupFirst codes) ∧
      List.Pairwise (fun a b => strLt a b = true) (sortStrings (dedupFirst codes)) ∧
      (sortStrings (dedupFirst codes)).Nodup ∧
      (∀ c, c ∈ sortStrings (dedupFirst codes) ↔ c ∈ codes) := by
  have hp := pairwise_sortStrings (dedupFirst codes) (nodup_dedupAux codes [])
  refine ⟨extract_format_ambiguous codes score h, hp, ?_, ?_⟩
  · refine hp.imp ?_
    intro a b hab
    intro heq
    rw [heq, strLt, strLtB_irrefl] at hab
    exact Bool.false_ne_true hab
  · intro c
    rw [mem_sortStrings, mem_dedupFirst]

/-- Witness for C10 at an unsorted, duplicate-carrying tie list. -/
theorem claim_C10_witness :
    extractCodes (format_ambiguous_output ["PR-403", "PR-401", "PR-403", "PR-402"] 88).2 =
      ["PR-401", "PR-402", "PR-403"] ∧
      sortStrings (dedupFirst ["PR-403", "PR-401", "PR-403", "PR-402"]) =
        ["PR-401", "PR-402", "PR-403"] := by
  have h := claim_C10 ["PR-403", "PR-401", "PR-403", "PR-402"] 88 (by decide)
  refine ⟨?_, by decide⟩
  rw [h.1]
  decide

/-! ### Lemmas about the contextual show-all block -/

/-- A pattern matches at the front of any extension of itself. -/
theorem matchesHere_append_self : ∀ p r : List Char, matchesHere p (p ++ r) = true := by
  intro p
  induction p with
  | nil => intro r; rfl
  | cons c cs ih => intro r; simp [matchesHere, ih]

/-- A front match gives substring containment. -/
theorem subAux_of_matchesHere (p : List Char) : ∀ l : List Char,
    matchesHere p l = true → subAux p l = true := by
  intro l h
  cases l with
  | nil => simpa [subAux] using h
  | cons c cs => simp [subAux, h]

/-- A string whose data starts with the pattern's data contains the pattern. -/
theorem containsSub_of_front (s pat : String) (r : List Char)
    (h : s.data = pat.data ++ r) : containsSub s pat = true := by
  unfold containsSub
  rw [h]
  exact subAux_of_matchesHere _ _ (matchesHere_append_self _ _)

/-- Every rendered ambiguity listing contains the ambiguity marker. -/
theorem marker_of_format (codes : List String) (s : Nat) :
    containsSub (format_ambiguous_output codes s).2 "### Ambiguous Search Result" = true := by
  apply containsSub_of_front _ _ (['\n', '\n'] ++
    (("I found multiple possible matches that score ".data ++ ((Nat.repr s).data ++
      "%. Please try searching for one of the specific 08 Codes below for the full details:".data)) ++
     ("\n\n".data ++
      (joinLines ((sortStrings (dedupFirst codes)).map
        (fun code => "* `" ++ code ++ "`"))).data)))
  have hsplit : ("### Ambiguous Search Result\n\n" : String).data =
      ("### Ambiguous Search Result" : String).data ++ ['\n', '\n'] := by decide
  simp [format_ambiguous_output, String.data_append, hsplit]

/-- The show-all success path of the chat loop: a recognized show-all command
after an ambiguity listing with a non-empty extraction renders the show-all
snippet followed by the combined details of the extracted codes, in
extraction order. -/
theorem handleTurn_show_all (tbl : List (String × String) → String)
    (fz : String → String → Nat) (choose : List String → String)
    (hist : List Msg) (prompt : String) (df : List Row) (role content : String)
    (hlast : hist.getLast? = some { role := role, content := content })
    (hga : analyze_prompt choose prompt = (none, prompt))
    (hshow : showAllMatch (pyLower prompt) = true)
    (hcont : containsSub content "### Ambiguous Search Result" = true)
    (hext : extractCodes content ≠ []) :
    handleTurn tbl fz choose hist prompt df =
      " " ++ AMBIGUOUS_SHOW_ALL_SNIPPET ++ "\n\n" ++
        combineDetails tbl df (extractCodes content) := by
  have hne : hist ≠ [] := by
    intro h0
    rw [h0] at hlast
    simp at hlast
  have hlen : 2 ≤ (hist ++ [({ role := "user", content := prompt } : Msg)]).length := by
    have h1 : 1 ≤ hist.length := List.length_pos.mpr hne
    simp only [List.length_append, List.length_cons, List.length_nil]
    omega
  have hpt : pyTruthy none = false := rfl
  simp only [handleTurn, hga, hlast, hpt, Bool.false_eq_true, if_false]
  rw [if_pos hlen]
  rw [if_pos (by simp [hshow, hcont] :
    (showAllMatch (pyLower prompt) &&
      containsSub content "### Ambiguous Search Result") = true)]
  rw [if_neg hext]
  simp only [formatTurn, if_pos rfl, if_true]
  rfl

/-- C5 counterexample: on a prior turn that lists `PR-401`, `PR-401`,
`PR-402`, `PR-403` as an ambiguity listing (a code appearing twice), the
show-all extraction keeps the duplicate and the rendered output contains the
`PR-401` detail block twice — refuting "no duplicates even if a code appears
twice in the listing". -/
theorem claim_C5_counterexample :
    extractCodes ambigPRdup = ["PR-401", "PR-401", "PR-402", "PR-403"] ∧
      ¬ (extractCodes ambigPRdup).Nodup ∧
      handleTurn tbl0 fzEq choose0 histDup "show all" dfPR =
        " " ++ AMBIGUOUS_SHOW_ALL_SNIPPET ++ "\n\n" ++
          (format_single_code_details tbl0 "PR-401" (codeGroup dfPR "PR-401") ++
            (format_single_code_details tbl0 "PR-401" (codeGroup dfPR "PR-401") ++
              (format_single_code_details tbl0 "PR-402" (codeGroup dfPR "PR-402") ++
                (format_single_code_details tbl0 "PR-403" (codeGroup dfPR "PR-403") ++ "")))) ∧
      format_single_code_details tbl0 "PR-401" (codeGroup dfPR "PR-401") ≠ "" := by
  exact ⟨by decide, by decide, by decide, by decide⟩

/-- C5 (amended): given a prior assistant turn whose rendered text is an
ambiguity listing in which `PR-401`, `PR-402`, `PR-403` each appear once, a
follow-up query recognized as a show-all command produces detail output
covering exactly those three codes, in that order, with no duplicates; codes
are expanded once per occurrence in the listing, so a duplicated code in the
prior text would be expanded once per occurrence rather than deduplicated. -/
theorem claim_C5_amended (tbl : List (String × String) → String)
    (fz : String → String → Nat) (choose : List String → String)
    (hist : List Msg) (prompt : String) (df : List Row) (role : String) (s : Nat)
    (hlast : hist.getLast? =
      some (Msg.mk role (format_ambiguous_output ["PR-401", "PR-402", "PR-403"] s).2))
    (hga : analyze_prompt choose prompt = (none, prompt))
    (hshow : showAllMatch (pyLower prompt) = true) :
    extractCodes (format_ambiguous_output ["PR-401", "PR-402", "PR-403"] s).2 =
      ["PR-401", "PR-402", "PR-403"] ∧
      (["PR-401", "PR-402", "PR-403"] : List String).Nodup ∧
      handleTurn tbl fz choose hist prompt df =
        " " ++ AMBIGUOUS_SHOW_ALL_SNIPPET ++ "\n\n" ++
          combineDetails tbl df ["PR-401", "PR-402", "PR-403"] := by
  have hext : extractCodes (format_ambiguous_output ["PR-401", "PR-402", "PR-403"] s).2 =
      ["PR-401", "PR-402", "PR-403"] := by
    rw [extract_format_ambiguous _ _ (by decide)]
    decide
  refine ⟨hext, by decide, ?_⟩
  have h := handleTurn_show_all tbl fz choose hist prompt df role
    (format_ambiguous_output ["PR-401", "PR-402", "PR-403"] s).2 hlast hga hshow
    (marker_of_format _ _) (by rw [hext]; simp)
  rw [h, hext]

/-- Witness for the amended C5 at a concrete score, history and dataset. -/
theorem claim_C5_amended_witness :
    extractCodes (format_ambiguous_output ["PR-401", "PR-402", "PR-403"] 80).2 =
      ["PR-401", "PR-402", "PR-403"] ∧
      handleTurn tbl0 fzEq choose0 histPR "show all" dfPR =
        " " ++ AMBIGUOUS_SHOW_ALL_SNIPPET ++ "\n\n" ++
          combineDetails tbl0 dfPR ["PR-401", "PR-402", "PR-403"] := by
  have h := claim_C5_amended tbl0 fzEq choose0 histPR "show all" dfPR "assistant" 80
    rfl (by decide) (by decide)
  exact ⟨h.1, h.2.2⟩

/-- C6: at the failing input — a recognized show-all command whose preceding
assistant turn carries the ambiguity marker but yields zero extracted codes
(lowercase bullet codes) — the chat loop renders the generic fallback of
line 296 of `app.py`, not the distinct extraction-failed message assigned at
line 263, because the formatting section overwrites `final_response`. -/
theorem claim_C6_code_eval :
    showAllMatch (pyLower "show all") = true ∧
      containsSub ambigLower "### Ambiguous Search Result" = true ∧
      extractCodes ambigLower = [] ∧
      handleTurn tbl0 fzEq choose0 histLower "show all" dfPR = GENERIC_FALLBACK_MSG ∧
      GENERIC_FALLBACK_MSG ≠ EXTRACTION_FAILED_MSG := by
  exact ⟨by decide, by decide, by decide, by decide, by decide⟩
